import Mathlib

/-!
# Verification of the Odyssey HCM core business logic

Shallow embedding, in Lean 4, of the core business-rule functions of the
Odyssey HCM repository, together with theorems checking the natural-language
specification against them:

* the leave-request days calculation and form validation of the frontend
  leave-request form (`calculateDays`, `validateForm`);
* the goal progress aggregation from weighted key results
  (`updateGoalProgressFromKeyResults` in `performance.service.ts`);
* the sequential approval workflow for job requisitions
  (`approveJobRequisition` in `performance.service.ts`);
* the recruitment pipeline stage tracker
  (`updateApplicationStage` in `performance.service.ts`).

Dates and timestamps are modelled as integer milliseconds since the epoch
(the value of JavaScript `Date.getTime()`); fractional day counts and
monetary-style numeric fields are modelled as rationals.  Database writes
are modelled by explicit state passing: each service method takes the
relevant rows as input and returns the updated rows, together with an
`Option String` holding the thrown error message, if any.  In the source,
every `throw` in the modelled methods happens before the first database
write, so an error result always carries the input state unchanged.
-/

namespace HCM

/-! ## Leave request form: `calculateDays` (src/unnamed/part_001)

`calculateDays` reads `formData.startDate`/`endDate` (parsed with
`new Date`), `formData.startTime`/`endTime` (`"full_day"` or `"half_day"`),
and stores the computed day count.  We model the parsed dates as integer
milliseconds and return the computed rational day count. -/

/-- Milliseconds per day, the `1000 * 60 * 60 * 24` of the source. -/
def msPerDay : ℕ := 1000 * 60 * 60 * 24

/-- `Math.ceil (n / d)` for a nonnegative integer numerator `n` and positive
integer denominator `d`, as used on `diffTime / msPerDay`. -/
def ceilDiv (n d : ℕ) : ℕ := (n + d - 1) / d

/-- The `calculateDays` function of the leave-request form
(src/unnamed/part_001, lines 77-101).  `start` and `end_` are the parsed
start and end dates in milliseconds; `startTime` and `endTime` are the
boundary flags.  If `start > end` the source stores `0` and returns early;
otherwise it computes `diffDays = Math.ceil(|end - start| / msPerDay) + 1`
and adjusts for half-day boundaries. -/
def calculateDays (start end_ : ℤ) (startTime endTime : String) : ℚ :=
  if end_ < start then 0
  else
    let diffTime : ℕ := (end_ - start).natAbs
    let diffDays : ℕ := ceilDiv diffTime msPerDay + 1
    if startTime = "half_day" ∧ endTime = "half_day" then
      if diffDays = 1 then 1 / 2 else (diffDays : ℚ) - 1 / 2
    else if startTime = "half_day" ∨ endTime = "half_day" then
      (diffDays : ℚ) - 1 / 2
    else (diffDays : ℚ)

/-- The policy data held by the form after fetching balances: minimum notice
in hours, negative-balance allowance, and the available balance. -/
structure LeavePolicyInfo where
  minimumNotice : ℚ
  requiresApproval : Bool
  allowNegativeBalance : Bool
  balanceAvailable : ℚ
deriving DecidableEq, Repr

/-- The error map built by `validateForm`: one optional message per form
field that the source ever writes (`policyId`, `startDate`, `endDate`,
`reason`, `general`). -/
structure FormErrors where
  policyId : Option String
  startDate : Option String
  endDate : Option String
  reason : Option String
  general : Option String
deriving DecidableEq, Repr

/-- The `validateForm` function of the leave-request form
(src/unnamed/part_001, lines 103-141), returning the error map it builds.
`startDate`/`endDate` are `none` when the corresponding form field is empty
and carry the parsed date in milliseconds otherwise; `now` is the current
time in milliseconds; `calculatedDays` is the state variable set by
`calculateDays`.  The interpolated parts of the notice and balance messages
are omitted: no property below depends on message text. -/
def validateForm (policyId : String) (startDate endDate : Option ℤ)
    (reason : String) (selectedPolicy : Option LeavePolicyInfo)
    (now : ℤ) (calculatedDays : ℚ) : FormErrors :=
  { policyId := if policyId = "" then some "Please select a leave type" else none
    startDate :=
      match startDate with
      | none => some "Start date is required"
      | some s =>
        match selectedPolicy with
        | some p =>
          if ((s - now : ℤ) : ℚ) / (1000 * 60 * 60) < p.minimumNotice then
            some "Minimum hours notice required"
          else none
        | none => none
    endDate :=
      match endDate with
      | none => some "End date is required"
      | some e =>
        match startDate with
        | some s => if e < s then some "End date must be after start date" else none
        | none => none
    reason := if reason.trim = "" then some "Reason is required" else none
    general :=
      match selectedPolicy with
      | some p =>
        if 0 < calculatedDays ∧ ¬p.allowNegativeBalance ∧
            p.balanceAvailable < calculatedDays then
          some "Insufficient leave balance"
        else none
      | none => none }

/-- The boolean result of `validateForm`:
`Object.keys(newErrors).length === 0`. -/
def formIsValid (e : FormErrors) : Bool :=
  e.policyId = none ∧ e.startDate = none ∧ e.endDate = none ∧
    e.reason = none ∧ e.general = none

/-! ## Goal progress aggregation
(`updateGoalProgressFromKeyResults`, performance.service.ts lines 640-669)

The method fetches the goal's key results, returns early when there are
none, otherwise computes a weighted average of per-key-result progress and
writes `Math.round(averageProgress)` to the goal's `progress_percentage`.
We model it as a function from the stored percentage and the key-result
rows to the resulting percentage, together with a flag recording whether a
write to the goal occurred. -/

/-- A key-result row, with the fields `updateGoalProgressFromKeyResults`
reads. -/
structure KeyResult where
  target_value : ℚ
  current_value : ℚ
  weight : ℚ
  is_binary : Bool
deriving DecidableEq, Repr

/-- The per-key-result progress of the source:
`is_binary ? (current_value >= target_value ? 100 : 0)
           : Math.min((current_value / target_value) * 100, 100)`.
(For a non-binary key result the source presumes `target_value ≠ 0`;
theorems about non-binary rows carry `0 < target_value`.) -/
def keyResultProgress (kr : KeyResult) : ℚ :=
  if kr.is_binary then
    if kr.target_value ≤ kr.current_value then 100 else 0
  else
    min (kr.current_value / kr.target_value * 100) 100

/-- `totalProgress`: the `forEach` accumulation of
`progress * kr.weight`. -/
def totalProgress (krs : List KeyResult) : ℚ :=
  krs.foldl (fun acc kr => acc + keyResultProgress kr * kr.weight) 0

/-- `totalWeight`: the `forEach` accumulation of `kr.weight`. -/
def totalWeight (krs : List KeyResult) : ℚ :=
  krs.foldl (fun acc kr => acc + kr.weight) 0

/-- JavaScript `Math.round`: round half toward positive infinity, which is
Mathlib's `round` (`⌊x + 1/2⌋`). -/
def jsRound (x : ℚ) : ℤ := round x

/-- `updateGoalProgressFromKeyResults` (performance.service.ts lines
640-669): given the goal's stored `progress_percentage` and its key-result
rows, return the resulting stored percentage and whether the goal row was
written.  With no key results the method returns before any write; otherwise
it writes `Math.round(totalWeight > 0 ? totalProgress / totalWeight : 0)`. -/
def updateGoalProgressFromKeyResults (progressPercentage : ℤ)
    (krs : List KeyResult) : ℤ × Bool :=
  if krs.length = 0 then (progressPercentage, false)
  else
    let averageProgress : ℚ :=
      if 0 < totalWeight krs then totalProgress krs / totalWeight krs else 0
    (jsRound averageProgress, true)

/-! ## Sequential approval workflow for job requisitions
(`approveJobRequisition`, performance.service.ts lines 1386-1448)

State for one requisition: its status, and its (optional) approval
workflow with its steps.  `approveJobRequisition` is modelled as a function
from this state and the acting approver to the new state plus the thrown
error message, if any.  In the source the single `throw` precedes every
write, so an error result returns the input state unchanged. -/

/-- An `ApprovalStep` row, with the fields the method reads or writes.
`actionDate` is the timestamp written on approval (`none` until acted on). -/
structure ApprovalStep where
  id : ℕ
  level : ℤ
  approverId : String
  status : String
  comments : Option String
  actionDate : Option ℤ
deriving DecidableEq, Repr

/-- An `ApprovalWorkflow` row together with its steps.  `completedAt` is
the timestamp written on completion. -/
structure ApprovalWorkflow where
  status : String
  steps : List ApprovalStep
  completedAt : Option ℤ
deriving DecidableEq, Repr

/-- The state touched by `approveJobRequisition` for one requisition:
its workflow (if any), the requisition `status`, and the
`approvedAt`/`approvedById` fields written on final approval. -/
structure RequisitionState where
  workflow : Option ApprovalWorkflow
  reqStatus : String
  approvedAt : Option ℤ
  approvedById : Option String
deriving DecidableEq, Repr

/-- One step of the level-minimum fold used to model
`orderBy: { level: 'asc' }` followed by `take: 1` / `findFirst`. -/
def minStep (acc : Option ApprovalStep) (s : ApprovalStep) : Option ApprovalStep :=
  match acc with
  | none => some s
  | some t => if s.level < t.level then some s else some t

/-- The first element, in stored order, whose `level` is minimal. -/
def minByLevel (l : List ApprovalStep) : Option ApprovalStep :=
  l.foldl minStep none

/-- The `findFirst` on pending steps ordered by ascending `level` with
`take: 1`: the first step, in stored order, whose `level` is minimal among
steps with status `"pending"`. -/
def lowestPending (steps : List ApprovalStep) : Option ApprovalStep :=
  minByLevel (steps.filter fun s => s.status = "pending")

/-- The second `findFirst`: the first step, in stored order, with status
`"pending"` and `level` strictly greater than `lvl`, minimal such `level`
first. -/
def lowestPendingAbove (lvl : ℤ) (steps : List ApprovalStep) :
    Option ApprovalStep :=
  minByLevel (steps.filter fun s => s.status = "pending" ∧ lvl < s.level)

/-- The `data:` of the `approvalStep.update` call: the step whose `id`
matches the current step is set to `"approved"` with the action date and
comments; every other row is untouched. -/
def approveUpdate (cur : ApprovalStep) (comments : Option String) (now : ℤ)
    (s : ApprovalStep) : ApprovalStep :=
  if s.id = cur.id then
    { s with status := "approved", actionDate := some now, comments := comments }
  else s

/-- `approveJobRequisition` (performance.service.ts lines 1386-1448).
`now` stands for the `new Date()` timestamps written to `actionDate`,
`approvedAt` and `completedAt`.  Steps:
1. find the requisition's workflow with status `"active"`, including its
   lowest-level pending step; throw `'Not authorized to approve at this
   level'` when there is no such workflow, no pending step, or the step's
   approver is not the caller;
2. update that step to `"approved"` with the action date and comments;
3. look for a pending step at a strictly higher level; if none exists,
   mark the requisition `"approved"` and the workflow `"completed"`. -/
def approveJobRequisition (st : RequisitionState) (approverId : String)
    (comments : Option String) (now : ℤ) : RequisitionState × Option String :=
  let activeWorkflow : Option ApprovalWorkflow :=
    match st.workflow with
    | some w => if w.status = "active" then some w else none
    | none => none
  match activeWorkflow with
  | none => (st, some "Not authorized to approve at this level")
  | some w =>
    match lowestPending w.steps with
    | none => (st, some "Not authorized to approve at this level")
    | some cur =>
      if cur.approverId = approverId then
        let steps' := w.steps.map (approveUpdate cur comments now)
        match lowestPendingAbove cur.level steps' with
        | some _ =>
          ({ st with workflow := some { w with steps := steps' } }, none)
        | none =>
          ({ workflow :=
               some { w with steps := steps', status := "completed",
                             completedAt := some now },
             reqStatus := "approved",
             approvedAt := some now,
             approvedById := some approverId }, none)
      else (st, some "Not authorized to approve at this level")

/-! ### The spec's two-level requisition scenario

Approver `A` at level 1 and approver `B` at level 2, both steps `pending`,
workflow `active` — the shape produced by `createOfferApprovalWorkflow`-style
initialization with two approvers. -/

/-- Level-1 step of the scenario, owned by approver `A`. -/
def stepA : ApprovalStep := ⟨1, 1, "A", "pending", none, none⟩

/-- Level-2 step of the scenario, owned by approver `B`. -/
def stepB : ApprovalStep := ⟨2, 2, "B", "pending", none, none⟩

/-- The scenario's active two-step workflow. -/
def twoLevelWorkflow : ApprovalWorkflow := ⟨"active", [stepA, stepB], none⟩

/-- The scenario's requisition state before any approval. -/
def twoLevelState : RequisitionState :=
  ⟨some twoLevelWorkflow, "pending_approval", none, none⟩

/-- The state after approver `A` acts. -/
def afterA : RequisitionState := (approveJobRequisition twoLevelState "A" none 0).1

/-- The state after approver `B` then acts. -/
def afterAB : RequisitionState := (approveJobRequisition afterA "B" none 0).1

/-- A requisition whose workflow has already completed: both steps approved,
workflow `"completed"`, requisition `"approved"`. -/
def completedWorkflowState : RequisitionState :=
  ⟨some ⟨"completed", [⟨1, 1, "A", "approved", none, some 0⟩,
     ⟨2, 2, "B", "approved", none, some 0⟩], some 0⟩,
   "approved", some 0, some "B"⟩

/-! ## Recruitment pipeline stage tracker
(`updateApplicationStage`, performance.service.ts lines 1737-1760) -/

/-- The stage enumeration of `updateApplicationStageSchema`
(recruitment.schemas.ts lines 228-247). -/
inductive Stage
  | applied
  | screening
  | phone_interview
  | technical_interview
  | onsite_interview
  | final_interview
  | background_check
  | offer_pending
  | offer_sent
  | hired
  | rejected
  | withdrawn
deriving DecidableEq, Repr

/-- The application fields `updateApplicationStage` writes. -/
structure Application where
  stage : Stage
  updatedById : String
  updatedAt : ℤ
deriving DecidableEq, Repr

/-- One `ApplicationStageHistory` row. -/
structure StageHistoryRecord where
  applicationId : String
  stage : Stage
  notes : Option String
  rejectionReason : Option String
  feedback : Option String
  changedById : String
deriving DecidableEq, Repr

/-- The validated `UpdateApplicationStage` payload. -/
structure UpdateApplicationStage where
  applicationId : String
  stage : Stage
  notes : Option String
  rejectionReason : Option String
  feedback : Option String
deriving DecidableEq, Repr

/-- `updateApplicationStage` (performance.service.ts lines 1737-1760):
unconditionally set the application's stage and append one history row.
`app` and `history` are the application row and its existing history;
`now` stands for `new Date()`. -/
def updateApplicationStage (app : Application)
    (history : List StageHistoryRecord) (data : UpdateApplicationStage)
    (updatedById : String) (now : ℤ) :
    Application × List StageHistoryRecord :=
  ({ app with stage := data.stage, updatedById := updatedById,
              updatedAt := now },
   history ++
     [{ applicationId := data.applicationId, stage := data.stage,
        notes := data.notes, rejectionReason := data.rejectionReason,
        feedback := data.feedback, changedById := updatedById }])

/-! ## Helper lemmas -/

/-- The `forEach` accumulations of the goal aggregator are sums over the
mapped list. -/
lemma foldl_add_map (f : KeyResult → ℚ) (l : List KeyResult) (a : ℚ) :
    l.foldl (fun acc kr => acc + f kr) a = a + (l.map f).sum := by
  induction l generalizing a with
  | nil => simp
  | cons x l ih => simp only [List.foldl_cons, List.map_cons, List.sum_cons, ih]; ring

lemma totalProgress_eq (krs : List KeyResult) :
    totalProgress krs = (krs.map fun kr => keyResultProgress kr * kr.weight).sum := by
  simpa using foldl_add_map (fun kr => keyResultProgress kr * kr.weight) krs 0

lemma totalWeight_eq (krs : List KeyResult) :
    totalWeight krs = (krs.map KeyResult.weight).sum := by
  simpa using foldl_add_map KeyResult.weight krs 0

/-- The level-minimum fold started from `some t₀` yields an element of
`t₀ :: l` whose level bounds `t₀` and every element of `l`. -/
lemma minByLevel_go (l : List ApprovalStep) :
    ∀ t₀ : ApprovalStep, ∃ t, l.foldl minStep (some t₀) = some t ∧
      t.level ≤ t₀.level ∧ (t = t₀ ∨ t ∈ l) ∧ ∀ s ∈ l, t.level ≤ s.level := by
  induction l with
  | nil => intro t₀; exact ⟨t₀, rfl, le_refl _, Or.inl rfl, by simp⟩
  | cons s l ih =>
    intro t₀
    rw [List.foldl_cons]
    by_cases h : s.level < t₀.level
    · have hstep : minStep (some t₀) s = some s := by simp [minStep, h]
      rw [hstep]
      obtain ⟨t, heq, hle, hmem, hall⟩ := ih s
      refine ⟨t, heq, le_of_lt (lt_of_le_of_lt hle h), ?_, ?_⟩
      · rcases hmem with rfl | hmem
        · exact Or.inr (List.mem_cons_self _ _)
        · exact Or.inr (List.mem_cons_of_mem _ hmem)
      · intro u hu
        rcases List.mem_cons.mp hu with rfl | hu
        · exact hle
        · exact hall u hu
    · have hstep : minStep (some t₀) s = some t₀ := by simp [minStep, h]
      rw [hstep]
      obtain ⟨t, heq, hle, hmem, hall⟩ := ih t₀
      refine ⟨t, heq, hle, ?_, ?_⟩
      · rcases hmem with rfl | hmem
        · exact Or.inl rfl
        · exact Or.inr (List.mem_cons_of_mem _ hmem)
      · intro u hu
        rcases List.mem_cons.mp hu with rfl | hu
        · exact le_trans hle (le_of_not_lt h)
        · exact hall u hu

lemma minByLevel_eq_none_iff (l : List ApprovalStep) :
    minByLevel l = none ↔ l = [] := by
  cases l with
  | nil => simp [minByLevel]
  | cons s l =>
    simp only [minByLevel, List.foldl_cons]
    have hstep : minStep none s = some s := rfl
    rw [hstep]
    obtain ⟨t, heq, -⟩ := minByLevel_go l s
    simp [heq]

lemma minByLevel_spec (l : List ApprovalStep) (t : ApprovalStep)
    (h : minByLevel l = some t) :
    t ∈ l ∧ ∀ s ∈ l, t.level ≤ s.level := by
  cases l with
  | nil => simp [minByLevel] at h
  | cons s l =>
    rw [minByLevel, List.foldl_cons] at h
    have hstep : minStep none s = some s := rfl
    rw [hstep] at h
    obtain ⟨t', heq, hle, hmem, hall⟩ := minByLevel_go l s
    rw [heq] at h
    injection h with h'
    subst h'
    constructor
    · rcases hmem with rfl | hmem
      · exact List.mem_cons_self _ _
      · exact List.mem_cons_of_mem _ hmem
    · intro u hu
      rcases List.mem_cons.mp hu with rfl | hu
      · exact hle
      · exact hall u hu

lemma lowestPending_spec (steps : List ApprovalStep) (t : ApprovalStep)
    (h : lowestPending steps = some t) :
    t ∈ steps ∧ t.status = "pending" ∧
      ∀ s ∈ steps, s.status = "pending" → t.level ≤ s.level := by
  obtain ⟨hmem, hmin⟩ := minByLevel_spec _ t h
  rw [List.mem_filter] at hmem
  obtain ⟨hms, hp⟩ := hmem
  refine ⟨hms, by simpa using hp, ?_⟩
  intro s hs hsp
  exact hmin s (List.mem_filter.mpr ⟨hs, by simpa using hsp⟩)

lemma lowestPending_isSome (steps : List ApprovalStep)
    (h : ∃ s ∈ steps, s.status = "pending") :
    ∃ t, lowestPending steps = some t := by
  obtain ⟨s, hs, hp⟩ := h
  have hne : steps.filter (fun s => s.status = "pending") ≠ [] :=
    List.ne_nil_of_mem (List.mem_filter.mpr ⟨hs, by simpa using hp⟩)
  rcases heq : lowestPending steps with _ | t
  · rw [lowestPending] at heq
    exact absurd ((minByLevel_eq_none_iff _).mp heq) hne
  · exact ⟨t, rfl⟩

lemma lowestPendingAbove_eq_none_iff (lvl : ℤ) (steps : List ApprovalStep) :
    lowestPendingAbove lvl steps = none ↔
      ∀ s ∈ steps, ¬(s.status = "pending" ∧ lvl < s.level) := by
  rw [lowestPendingAbove, minByLevel_eq_none_iff]
  constructor
  · intro hnil s hs hp
    have hmem : s ∈ steps.filter (fun s => s.status = "pending" ∧ lvl < s.level) :=
      List.mem_filter.mpr ⟨hs, by simpa using hp⟩
    rw [hnil] at hmem
    exact (List.not_mem_nil s) hmem
  · intro h
    apply List.eq_nil_iff_forall_not_mem.mpr
    intro s hs
    rw [List.mem_filter] at hs
    exact h s hs.1 (by simpa using hs.2)

/-- Reduction of `approveJobRequisition` on the authorized path: with an
active workflow whose lowest pending step belongs to the caller, the result
is determined by whether a pending step remains above the current level. -/
lemma approveJobRequisition_authorized (st : RequisitionState)
    (w : ApprovalWorkflow) (cur : ApprovalStep) (a : String)
    (c : Option String) (now : ℤ)
    (hw : st.workflow = some w) (hact : w.status = "active")
    (hcur : lowestPending w.steps = some cur) (happ : cur.approverId = a) :
    approveJobRequisition st a c now =
      match lowestPendingAbove cur.level (w.steps.map (approveUpdate cur c now)) with
      | some _ =>
        ({ st with
           workflow := some ({ w with
                               steps := w.steps.map (approveUpdate cur c now) }) },
          none)
      | none =>
        ({ workflow := some ({ w with
                               steps := w.steps.map (approveUpdate cur c now),
                               status := "completed", completedAt := some now }),
           reqStatus := "approved", approvedAt := some now,
           approvedById := some a }, none) := by
  rw [approveJobRequisition, hw]
  simp [hact, hcur, happ]

/-! ## Claims about the leave-request day computation -/

/-- C3, amended: for start ≤ end a whole number of days apart, the computed
days-requested is the inclusive date-span day count minus a single 0.5
whenever at least one boundary is a half-day (the source subtracts 0.5 once
when both boundaries are half-days on a multi-day request, not 0.5 per
boundary; for a single-day request with both boundaries half-day this also
gives 1 − 0.5 = 0.5). -/
theorem calculateDays_inclusive_span (start end_ : ℤ) (d : ℕ) (st et : String)
    (hspan : end_ - start = (d : ℤ) * (msPerDay : ℤ)) :
    calculateDays start end_ st et =
      ((d : ℚ) + 1) - (if st = "half_day" ∨ et = "half_day" then 1 / 2 else 0) := by
  have hm : (msPerDay : ℤ) = 86400000 := by norm_num [msPerDay]
  have hnn : (0 : ℤ) ≤ end_ - start := by
    rw [hspan, hm]; positivity
  have hlt : ¬end_ < start := by omega
  have habs : (end_ - start).natAbs = d * msPerDay := by
    rw [hspan, ← Nat.cast_mul, Int.natAbs_ofNat]
  have hceil : ceilDiv (d * msPerDay) msPerDay = d := by
    have hm' : msPerDay = 86400000 := by norm_num [msPerDay]
    unfold ceilDiv
    rw [hm']
    omega
  unfold calculateDays
  rw [if_neg hlt]
  simp only [habs, hceil]
  by_cases hst : st = "half_day" <;> by_cases het : et = "half_day" <;>
    simp only [hst, het, if_true, if_false, and_true, and_false, true_and,
      false_and, or_true, true_or, or_false, false_or, if_pos, ite_true,
      ite_false, and_self]
  · by_cases hd : d + 1 = 1
    · rw [if_pos hd]
      have : d = 0 := by omega
      subst this
      norm_num
    · rw [if_neg hd]
      push_cast
      ring
  · push_cast; ring
  · push_cast; ring
  · push_cast
    ring

/-- Witness for C3's amended theorem: a two-day request (`d = 1`) with a
half-day start computes 1.5 days. -/
theorem calculateDays_inclusive_span_witness :
    ((86400000 : ℤ) - 0 = ((1 : ℕ) : ℤ) * (msPerDay : ℤ)) ∧
    calculateDays 0 86400000 "half_day" "full_day" = 3 / 2 := by
  have h : (86400000 : ℤ) - 0 = ((1 : ℕ) : ℤ) * (msPerDay : ℤ) := by
    norm_num [msPerDay]
  refine ⟨h, ?_⟩
  rw [calculateDays_inclusive_span 0 86400000 1 "half_day" "full_day" h]
  norm_num

/-- Counterexample to C3 as stated: a three-day request (span 3) with both
boundaries half-day computes 2.5 days, not the 3 − 0.5 − 0.5 = 2 that
"subtract 0.5 per half-day boundary" would give. -/
theorem calculateDays_both_half_multiday_counterexample :
    calculateDays 0 172800000 "half_day" "half_day" = 5 / 2 ∧
    calculateDays 0 172800000 "half_day" "half_day" ≠ 3 - 1 / 2 - 1 / 2 := by
  constructor <;> norm_num [calculateDays, ceilDiv, msPerDay]

/-- C4: for every start date, end date and pair of boundary flags (the
flags range over all strings; `"half_day"` marks a half-day boundary), the
computed days-requested is nonnegative and an integer multiple of 0.5. -/
theorem calculateDays_nonneg_half_integral (start end_ : ℤ) (st et : String) :
    0 ≤ calculateDays start end_ st et ∧
    ∃ n : ℕ, calculateDays start end_ st et = (n : ℚ) / 2 := by
  unfold calculateDays
  by_cases h : end_ < start
  · rw [if_pos h]
    exact ⟨le_refl 0, 0, by norm_num⟩
  · rw [if_neg h]
    simp only
    set k := ceilDiv (end_ - start).natAbs msPerDay with hk
    split_ifs with h1 h2 h3
    · exact ⟨by norm_num, 1, by norm_num⟩
    · refine ⟨?_, 2 * k + 1, ?_⟩
      · have : (1 : ℚ) ≤ ((k + 1 : ℕ) : ℚ) := by push_cast; linarith [Nat.cast_nonneg (α := ℚ) k]
        linarith
      · push_cast; ring
    · refine ⟨?_, 2 * k + 1, ?_⟩
      · have : (1 : ℚ) ≤ ((k + 1 : ℕ) : ℚ) := by push_cast; linarith [Nat.cast_nonneg (α := ℚ) k]
        linarith
      · push_cast; ring
    · exact ⟨by positivity, 2 * (k + 1), by push_cast; ring⟩

/-- C5: when the start date is strictly after the end date, `validateForm`
records an error (the form is invalid) and `calculateDays` stores 0, never a
computed span. -/
theorem startAfterEnd_invalid (policyId : String) (s e : ℤ) (reason : String)
    (policy : Option LeavePolicyInfo) (now : ℤ) (cd : ℚ) (st et : String)
    (hlt : e < s) :
    formIsValid (validateForm policyId (some s) (some e) reason policy now cd) = false ∧
    calculateDays s e st et = 0 := by
  constructor
  · have hend : (validateForm policyId (some s) (some e) reason policy now cd).endDate =
        some "End date must be after start date" := by
      simp [validateForm, hlt]
    simp [formIsValid, hend]
  · unfold calculateDays
    rw [if_pos hlt]

/-- Witness for C5: start one day after end. -/
theorem startAfterEnd_invalid_witness :
    ((0 : ℤ) < 86400000) ∧
    formIsValid (validateForm "p1" (some 86400000) (some 0) "vacation" none 0 0) = false ∧
    calculateDays 86400000 0 "full_day" "full_day" = 0 := by
  have h : (0 : ℤ) < 86400000 := by norm_num
  exact ⟨h, (startAfterEnd_invalid "p1" 86400000 0 "vacation" none 0 0
      "full_day" "full_day" h).1,
    (startAfterEnd_invalid "p1" 86400000 0 "vacation" none 0 0
      "full_day" "full_day" h).2⟩

/-! ## Claims about the goal progress aggregator -/

/-- C6: for a goal with at least one key result and positive total weight,
recomputation writes `round(Σ(resultProgress × weight) / Σ(weight))` with
`resultProgress` as in `keyResultProgress`. -/
theorem updateGoalProgress_weighted_average (g : ℤ) (krs : List KeyResult)
    (hne : krs ≠ [])
    (hw : 0 < (krs.map KeyResult.weight).sum) :
    updateGoalProgressFromKeyResults g krs =
      (jsRound ((krs.map fun kr => keyResultProgress kr * kr.weight).sum /
        (krs.map KeyResult.weight).sum), true) := by
  unfold updateGoalProgressFromKeyResults
  rw [if_neg (by simpa [List.length_eq_zero] using hne)]
  rw [totalProgress_eq, totalWeight_eq, if_pos hw]

/-- Witness for C6, the spec's scenario: key results
`{target 10, current 10, weight 50, proportional}` and
`{target 1, current 0, weight 50, binary}` yield goal progress 50. -/
theorem updateGoalProgress_weighted_average_witness :
    ([⟨10, 10, 50, false⟩, ⟨1, 0, 50, true⟩] : List KeyResult) ≠ [] ∧
    (0 : ℚ) < (([⟨10, 10, 50, false⟩, ⟨1, 0, 50, true⟩] : List KeyResult).map
      KeyResult.weight).sum ∧
    updateGoalProgressFromKeyResults 0 [⟨10, 10, 50, false⟩, ⟨1, 0, 50, true⟩] =
      (50, true) := by
  refine ⟨by simp, by norm_num, ?_⟩
  rw [updateGoalProgress_weighted_average 0 _ (by simp) (by norm_num)]
  norm_num [keyResultProgress, jsRound]

/-- C7: a goal with no key results is left untouched: the stored percentage
is returned unchanged and no write occurs. -/
theorem updateGoalProgress_no_key_results (g : ℤ) :
    updateGoalProgressFromKeyResults g [] = (g, false) := rfl

/-- C10: a goal with key results whose weights sum to 0 is written with
progress 0, overwriting any stored value — unlike the no-key-results case. -/
theorem updateGoalProgress_zero_weight (g : ℤ) (krs : List KeyResult)
    (hne : krs ≠ []) (hw0 : (krs.map KeyResult.weight).sum = 0) :
    updateGoalProgressFromKeyResults g krs = (0, true) := by
  unfold updateGoalProgressFromKeyResults
  rw [if_neg (by simpa [List.length_eq_zero] using hne)]
  rw [if_neg (by rw [totalWeight_eq, hw0]; exact lt_irrefl 0)]
  simp [jsRound]

/-- Witness for C10: one zero-weight key result, stored progress 73,
recomputed to 0. -/
theorem updateGoalProgress_zero_weight_witness :
    ([⟨1, 0, 0, false⟩] : List KeyResult) ≠ [] ∧
    (([⟨1, 0, 0, false⟩] : List KeyResult).map KeyResult.weight).sum = 0 ∧
    updateGoalProgressFromKeyResults 73 [⟨1, 0, 0, false⟩] = (0, true) := by
  exact ⟨by simp, by simp, updateGoalProgress_zero_weight 73 _ (by simp) (by simp)⟩

/-! ## Claim about the recruitment stage tracker -/

/-- C8: for every application and every target stage (the quantification
over `data.stage` covers the whole enumeration, including `hired` and
`rejected`, with no allowed-transition check on the previous stage),
`updateApplicationStage` sets the application's stage to the given stage and
appends exactly one history record carrying the stage, notes, rejection
reason, feedback and actor, leaving every existing record in place. -/
theorem updateApplicationStage_sets_stage_appends_history
    (app : Application) (history : List StageHistoryRecord)
    (data : UpdateApplicationStage) (updatedById : String) (now : ℤ) :
    (updateApplicationStage app history data updatedById now).1.stage = data.stage ∧
    (updateApplicationStage app history data updatedById now).2 =
      history ++ [⟨data.applicationId, data.stage, data.notes,
        data.rejectionReason, data.feedback, updatedById⟩] ∧
    (updateApplicationStage app history data updatedById now).2.take history.length =
      history ∧
    (updateApplicationStage app history data updatedById now).2.length =
      history.length + 1 := by
  refine ⟨rfl, rfl, ?_, by simp [updateApplicationStage]⟩
  simp [updateApplicationStage, List.take_left]

/-! ## Claims about the requisition approval workflow -/

/-- C1: when the lowest-level pending step of a requisition's active
workflow belongs to the acting approver, `approveJobRequisition` records the
approval on that step; if no pending step with a higher level remains the
workflow becomes `completed` and the requisition `approved`, while if one
remains the workflow stays `active`, the requisition status is untouched,
and the new actionable (lowest-level pending) step is one at a strictly
higher level than the approved one.  `hids` and `hlvl` state that rows have
distinct ids and distinct levels, as the workflow-creation code guarantees
(levels `1..N`, one row per level). -/
theorem approveJobRequisition_advances
    (st : RequisitionState) (w : ApprovalWorkflow) (cur : ApprovalStep)
    (a : String) (c : Option String) (now : ℤ)
    (hw : st.workflow = some w) (hact : w.status = "active")
    (hcur : lowestPending w.steps = some cur) (happ : cur.approverId = a)
    (hids : (w.steps.map ApprovalStep.id).Nodup)
    (hlvl : w.steps.Pairwise fun s t => s.level ≠ t.level) :
    ∃ st' w', approveJobRequisition st a c now = (st', none) ∧
      st'.workflow = some w' ∧
      w'.steps = w.steps.map (approveUpdate cur c now) ∧
      ((¬∃ s ∈ w.steps, s.status = "pending" ∧ cur.level < s.level) →
        w'.status = "completed" ∧ st'.reqStatus = "approved") ∧
      ((∃ s ∈ w.steps, s.status = "pending" ∧ cur.level < s.level) →
        w'.status = "active" ∧ st'.reqStatus = st.reqStatus ∧
        ∃ nxt, lowestPending w'.steps = some nxt ∧ nxt.status = "pending" ∧
          cur.level < nxt.level ∧
          ∀ s ∈ w'.steps, s.status = "pending" → nxt.level ≤ s.level) := by
  obtain ⟨hcmem, hcpend, hcmin⟩ := lowestPending_spec w.steps cur hcur
  have hinj : ∀ s ∈ w.steps, s.id = cur.id → s = cur := by
    intro s hs hid
    exact List.inj_on_of_nodup_map hids hs hcmem hid
  have hother : ∀ s ∈ w.steps, s ≠ cur → approveUpdate cur c now s = s := by
    intro s hs hne
    have hid : s.id ≠ cur.id := fun h => hne (hinj s hs h)
    simp [approveUpdate, hid]
  have hpend' : ∀ s', s' ∈ w.steps.map (approveUpdate cur c now) →
      s'.status = "pending" → s' ∈ w.steps ∧ s' ≠ cur ∧ cur.level < s'.level := by
    intro s' hs' hp
    obtain ⟨s₀, hs₀, rfl⟩ := List.mem_map.mp hs'
    by_cases hid : s₀.id = cur.id
    · exfalso
      revert hp
      simp [approveUpdate, hid]
    · have heq : approveUpdate cur c now s₀ = s₀ := by simp [approveUpdate, hid]
      rw [heq] at hp ⊢
      have hne : s₀ ≠ cur := fun h => hid (by rw [h])
      have hle := hcmin s₀ hs₀ hp
      have hnelev : s₀.level ≠ cur.level :=
        List.Pairwise.forall (fun x y h => Ne.symm h) hlvl hs₀ hcmem hne
      exact ⟨hs₀, hne, lt_of_le_of_ne hle (Ne.symm hnelev)⟩
  have hforward : ∀ s ∈ w.steps, s.status = "pending" → cur.level < s.level →
      s ∈ w.steps.map (approveUpdate cur c now) := by
    intro s hs hp hlt
    have hne : s ≠ cur := fun h => absurd hlt (by rw [h]; exact lt_irrefl _)
    have heq := hother s hs hne
    have := List.mem_map_of_mem (approveUpdate cur c now) hs
    rwa [heq] at this
  rw [approveJobRequisition_authorized st w cur a c now hw hact hcur happ]
  rcases hAbove : lowestPendingAbove cur.level
      (w.steps.map (approveUpdate cur c now)) with _ | nxt0
  · refine ⟨_, _, rfl, rfl, rfl, fun _ => ⟨rfl, rfl⟩, ?_⟩
    intro hP
    exfalso
    obtain ⟨s, hs, hp, hlt⟩ := hP
    exact (lowestPendingAbove_eq_none_iff _ _).mp hAbove s
      (hforward s hs hp hlt) ⟨hp, hlt⟩
  · refine ⟨_, _, rfl, rfl, rfl, ?_, ?_⟩
    · intro hnP
      exfalso
      rw [lowestPendingAbove] at hAbove
      have hmem0 := (minByLevel_spec _ nxt0 hAbove).1
      rw [List.mem_filter] at hmem0
      obtain ⟨hmem0, hprop⟩ := hmem0
      have hprop' : nxt0.status = "pending" ∧ cur.level < nxt0.level := by
        simpa using hprop
      obtain ⟨hmemw, -, hlt⟩ := hpend' nxt0 hmem0 hprop'.1
      exact hnP ⟨nxt0, hmemw, hprop'.1, hlt⟩
    · intro hP
      refine ⟨hact, rfl, ?_⟩
      have hex : ∃ s ∈ w.steps.map (approveUpdate cur c now),
          s.status = "pending" := by
        obtain ⟨s, hs, hp, hlt⟩ := hP
        exact ⟨s, hforward s hs hp hlt, hp⟩
      obtain ⟨nxt, hnxt⟩ := lowestPending_isSome _ hex
      obtain ⟨hnmem, hnpend, hnmin⟩ := lowestPending_spec _ nxt hnxt
      exact ⟨nxt, hnxt, hnpend, (hpend' nxt hnmem hnpend).2.2, hnmin⟩

/-- Witness for C1, the spec's two-level scenario: `A` (level 1) approves —
the workflow stays active and `B`'s step becomes the actionable pending
step; `B` then approves — the workflow completes and the requisition is
approved. -/
theorem approveJobRequisition_advances_witness :
    twoLevelState.workflow = some twoLevelWorkflow ∧
    twoLevelWorkflow.status = "active" ∧
    lowestPending twoLevelWorkflow.steps = some stepA ∧
    stepA.approverId = "A" ∧
    (approveJobRequisition twoLevelState "A" none 0).2 = none ∧
    afterA.workflow.map ApprovalWorkflow.status = some "active" ∧
    (afterA.workflow.map fun w => lowestPending w.steps) = some (some stepB) ∧
    (approveJobRequisition afterA "B" none 0).2 = none ∧
    afterAB.reqStatus = "approved" ∧
    afterAB.workflow.map ApprovalWorkflow.status = some "completed" := by
  refine ⟨rfl, rfl, by decide, rfl, ?_, by decide, by decide, ?_, by decide,
    by decide⟩
  · obtain ⟨st', w', heq, -⟩ := approveJobRequisition_advances twoLevelState
      twoLevelWorkflow stepA "A" none 0 rfl rfl (by decide) rfl (by decide)
      (by decide)
    rw [heq]
  · obtain ⟨st', w', heq, -⟩ := approveJobRequisition_advances afterA
      ⟨"active", [⟨1, 1, "A", "approved", none, some 0⟩, stepB], none⟩ stepB
      "B" none 0 (by decide) rfl (by decide) rfl (by decide) (by decide)
    rw [heq]

/-- C2: when the lowest-level pending step of the active workflow does not
belong to the acting user, `approveJobRequisition` throws `'Not authorized
to approve at this level'` and returns the state unchanged (in the source
the throw precedes every write). -/
theorem approveJobRequisition_not_authorized (st : RequisitionState)
    (w : ApprovalWorkflow) (cur : ApprovalStep) (a : String)
    (c : Option String) (now : ℤ)
    (hw : st.workflow = some w) (hact : w.status = "active")
    (hcur : lowestPending w.steps = some cur) (hne : cur.approverId ≠ a) :
    approveJobRequisition st a c now =
      (st, some "Not authorized to approve at this level") := by
  rw [approveJobRequisition, hw]
  simp [hact, hcur, hne]

/-- Witness for C2: in the two-level scenario, approver `B` (level 2) cannot
act while `A`'s level-1 step is the pending one. -/
theorem approveJobRequisition_not_authorized_witness :
    twoLevelState.workflow = some twoLevelWorkflow ∧
    twoLevelWorkflow.status = "active" ∧
    lowestPending twoLevelWorkflow.steps = some stepA ∧
    stepA.approverId ≠ "B" ∧
    approveJobRequisition twoLevelState "B" none 0 =
      (twoLevelState, some "Not authorized to approve at this level") := by
  refine ⟨rfl, rfl, by decide, by decide, ?_⟩
  exact approveJobRequisition_not_authorized twoLevelState twoLevelWorkflow
    stepA "B" none 0 rfl rfl (by decide) (by decide)

/-- C9: a requisition with no approval workflow in status `"active"` —
in particular one whose workflow has already `completed` — rejects every
approval attempt with the authorization error and leaves all state
unchanged, so no approval ever modifies a step of a completed workflow. -/
theorem approveJobRequisition_requires_active_workflow (st : RequisitionState)
    (h : st.workflow = none ∨ ∃ w, st.workflow = some w ∧ w.status ≠ "active") :
    ∀ (a : String) (c : Option String) (now : ℤ),
      approveJobRequisition st a c now =
        (st, some "Not authorized to approve at this level") := by
  intro a c now
  rcases h with h | ⟨w, hw, hne⟩
  · rw [approveJobRequisition, h]
  · rw [approveJobRequisition, hw]
    simp [hne]

/-- Witness for C9: any approval attempt on the already-completed workflow
state fails and changes nothing. -/
theorem approveJobRequisition_requires_active_workflow_witness :
    (completedWorkflowState.workflow = none ∨
      ∃ w, completedWorkflowState.workflow = some w ∧ w.status ≠ "active") ∧
    approveJobRequisition completedWorkflowState "A" none 5 =
      (completedWorkflowState, some "Not authorized to approve at this level") := by
  refine ⟨Or.inr ⟨_, rfl, by decide⟩, ?_⟩
  exact approveJobRequisition_requires_active_workflow completedWorkflowState
    (Or.inr ⟨_, rfl, by decide⟩) "A" none 5

end HCM
